import Mathlib

/-!
Verification of the WhatsOnZwift workout exporter (`src/content.js`).

The development shallowly embeds the three core functions of the content
script — `parseDuration`, `parseSegment` and `generateZWO` — as executable
Lean definitions over `List Char` / `String`, and proves the specification
claims about them.

Modelling conventions:
* Texts are `List Char` (the flattened display text of a fragment).
* A fragment's `span[data-value]` annotations are modelled as
  `List (Option ℚ)`: the entry is the result of JavaScript
  `parseFloat(span.dataset.value)`, with `none` standing for `NaN`.
  Rationals stand for JavaScript numbers; all numerals handled by the
  script are short decimal literals whose arithmetic here (×60, +, /100)
  is exact.
* `none : Option (List Char)` passed to `parseDuration` models a
  null/undefined argument.
* The JavaScript regexes used by the script are implemented as dedicated
  matchers.  Each regex in the source has the shape
  `class-run, whitespace-run, literal, …` in which every character class is
  disjoint from the first character of the following piece, so greedy
  maximal-munch matching (implemented below with `takeWhile`/`dropWhile`)
  is equivalent to the backtracking semantics of the JavaScript engine.
  The one construct where backtracking is observable — the alternation
  `([\d.]+\s*min(?:\s+\d+sec)?|\d+\s*sec)` of the duration phrase — is
  modelled by an explicit candidate list in preference order.
-/

/-! ### Character classes (ASCII fragment of the JS regex classes) -/

def jsIsDigit (c : Char) : Bool := 48 ≤ c.toNat && c.toNat ≤ 57

def jsIsDot (c : Char) : Bool := c = '.'

/-- Character class `[\d.]` used by the duration-numeral captures. -/
def jsIsDigitDot (c : Char) : Bool := jsIsDigit c || jsIsDot c

/-- Character class `\s` (ASCII part, which is all that occurs here). -/
def jsIsSpace (c : Char) : Bool :=
  c = ' ' || c = '\t' || c = '\n' || c = '\r' || c = '\x0b' || c = '\x0c'

/-! ### Basic string machinery -/

/-- Case-insensitive literal match at the start of `s`; on success returns
the rest of `s` after the literal (JS regexes here carry the `i` flag). -/
def litCI : List Char → List Char → Option (List Char)
  | [], s => some s
  | _ :: _, [] => none
  | c :: cs, x :: xs => if x.toLower = c.toLower then litCI cs xs else none

/-- Does `hay` start with `needle` (case-sensitive)? -/
def listStartsWith : List Char → List Char → Bool
  | [], _ => true
  | _ :: _, [] => false
  | a :: as, b :: bs => a = b && listStartsWith as bs

/-- Case-sensitive substring test, modelling JS `String.prototype.includes`. -/
def containsSub (needle : List Char) : List Char → Bool
  | [] => listStartsWith needle []
  | h :: t => listStartsWith needle (h :: t) || containsSub needle t

/-- JS `String.prototype.trim` (ASCII whitespace suffices for our inputs). -/
def jsTrim (s : List Char) : List Char :=
  ((s.dropWhile jsIsSpace).reverse.dropWhile jsIsSpace).reverse

/-- Decimal value of a digit string (used for JS `parseInt(str, 10)` on a
`\d+` capture, which never yields `NaN`). -/
def parseIntDec (s : List Char) : ℕ :=
  s.foldl (fun acc c => 10 * acc + (c.toNat - 48)) 0

/-- JS `parseFloat` restricted to the strings it ever receives from this
script: captures of `[\d.]+`.  It reads leading digits, then an optional
dot and more digits; `none` models `NaN` (no leading digit and no
fractional digit, e.g. `"..."`). -/
def jsParseFloat (s : List Char) : Option ℚ :=
  let ip := s.takeWhile jsIsDigit
  let r1 := s.dropWhile jsIsDigit
  match r1 with
  | '.' :: r2 =>
    let fp := r2.takeWhile jsIsDigit
    if ip.isEmpty && fp.isEmpty then none
    else some ((parseIntDec ip : ℚ) + (parseIntDec fp : ℚ) / (10 : ℚ) ^ fp.length)
  | _ => if ip.isEmpty then none else some (parseIntDec ip : ℚ)

/-! ### Generic `capture-class, \s*, literal` matcher

This implements search for the regexes `/([\d.]+)\s*min/i`,
`/([\d.]+)\s*sec/i` and `/(\d+)\s*rpm/i`: an unanchored leftmost search
for a (maximal) run of `cls` followed by optional whitespace and a
case-insensitive literal, returning the captured run. -/

def capUnitAt (cls : Char → Bool) (unit : List Char) (s : List Char) :
    Option (List Char) :=
  let tk := s.takeWhile cls
  if tk.isEmpty then none
  else
    match litCI unit ((s.dropWhile cls).dropWhile jsIsSpace) with
    | some _ => some tk
    | none => none

def searchCapUnit (cls : Char → Bool) (unit : List Char) :
    List Char → Option (List Char)
  | [] => none
  | c :: t =>
    match capUnitAt cls unit (c :: t) with
    | some cap => some cap
    | none => searchCapUnit cls unit t

/-- Search for `/([\d.]+)\s*min/i` (resp. `sec`): the duration-numeral
matcher of `parseDuration`. -/
def searchDurTok (unit : List Char) (s : List Char) : Option (List Char) :=
  searchCapUnit jsIsDigitDot unit s

/-! ### parseDuration -/

/-- JS `Math.round`: round half toward positive infinity. -/
def jsRound (q : ℚ) : ℤ := ⌊q + 1 / 2⌋

/-- Round half away from zero (the rounding named by the specification;
on the non-negative values produced by `parseDuration` it agrees with
`jsRound`). -/
def roundHalfAway (q : ℚ) : ℤ := if q < 0 then -⌊-q + 1 / 2⌋ else ⌊q + 1 / 2⌋

/-- The `duration` value of `parseDuration` before the final
`isNaN/negative` check and rounding; `none` models `NaN`. -/
def parseDurationQ (s : List Char) : Option ℚ :=
  if containsSub "min".data s && containsSub "sec".data s then
    -- combined branch: "7min 30sec"
    let mv : Option ℚ :=
      match searchDurTok "min".data s with
      | some cap => jsParseFloat cap
      | none => some 0
    let sv : Option ℚ :=
      match searchDurTok "sec".data s with
      | some cap => jsParseFloat cap
      | none => some 0
    match mv, sv with
    | some m, some q => some (m * 60 + q)
    | _, _ => none
  else
    match searchDurTok "min".data s with
    | some cap => (jsParseFloat cap).map (· * 60)
    | none =>
      match searchDurTok "sec".data s with
      | some cap => jsParseFloat cap
      | none => some 0

/-- `parseDuration` from `content.js`.  `none` is a null/undefined
argument; the empty string is falsy in JS, hence also returns 0. -/
def parseDuration : Option (List Char) → ℤ
  | none => 0
  | some s =>
    if s.isEmpty then 0
    else
      match parseDurationQ s with
      | none => 0                       -- isNaN(duration)
      | some q => if q < 0 then 0 else jsRound q

/-! ### Pattern matchers for parseSegment -/

/-- Require at least one whitespace character, then skip the maximal run
(`\s+` followed in every source pattern by a non-whitespace piece). -/
def ws1 (s : List Char) : Option (List Char) :=
  if (s.takeWhile jsIsSpace).isEmpty then none else some (s.dropWhile jsIsSpace)

/-- The original text matched between the start of `s` and the rest `r`
(used to recover a capture with its original casing). -/
def capOf (s r : List Char) : List Char := s.take (s.length - r.length)

/-- Anchored match of `/^([\d.]+)\s*(min|sec)\s+free\s+ride/i`; on success
returns the two captures (numeral, unit) with their original casing. -/
def freeRideMatch (s : List Char) : Option (List Char × List Char) :=
  let num := s.takeWhile jsIsDigitDot
  if num.isEmpty then none
  else
    let r2 := (s.dropWhile jsIsDigitDot).dropWhile jsIsSpace
    let unitRes : Option (List Char × List Char) :=
      match litCI "min".data r2 with
      | some r3 => some (r2.take 3, r3)
      | none =>
        match litCI "sec".data r2 with
        | some r3 => some (r2.take 3, r3)
        | none => none
    match unitRes with
    | none => none
    | some (unitTxt, r3) =>
      match ws1 r3 with
      | none => none
      | some r4 =>
        match litCI "free".data r4 with
        | none => none
        | some r5 =>
          match ws1 r5 with
          | none => none
          | some r6 =>
            match litCI "ride".data r6 with
            | none => none
            | some _ => some (num, unitTxt)

/-- Candidates for the duration-phrase alternation
`([\d.]+\s*min(?:\s+\d+sec)?|\d+\s*sec)` at the start of `s`, as
`(capture, rest)` pairs in the backtracking engine's preference order:
first branch with the optional `\s+\d+sec` group, first branch without
it, then the second branch. -/
def durPhraseCands (s : List Char) : List (List Char × List Char) :=
  let branch1 : List (List Char × List Char) :=
    if (s.takeWhile jsIsDigitDot).isEmpty then []
    else
      let r2 := (s.dropWhile jsIsDigitDot).dropWhile jsIsSpace
      match litCI "min".data r2 with
      | none => []
      | some r3 =>
        let withOpt : Option (List Char × List Char) :=
          match ws1 r3 with
          | none => none
          | some r4 =>
            if (r4.takeWhile jsIsDigit).isEmpty then none
            else
              match litCI "sec".data (r4.dropWhile jsIsDigit) with
              | none => none
              | some r6 => some (capOf s r6, r6)
        match withOpt with
        | some c => [c, (capOf s r3, r3)]
        | none => [(capOf s r3, r3)]
  let branch2 : List (List Char × List Char) :=
    if (s.takeWhile jsIsDigit).isEmpty then []
    else
      let r2 := (s.dropWhile jsIsDigit).dropWhile jsIsSpace
      match litCI "sec".data r2 with
      | none => []
      | some r3 => [(capOf s r3, r3)]
  branch1 ++ branch2

/-- Try the continuation on each candidate in preference order. -/
def firstCand {α : Type} (cands : List (List Char × List Char))
    (k : List Char × List Char → Option α) : Option α :=
  match cands with
  | [] => none
  | c :: cs =>
    match k c with
    | some r => some r
    | none => firstCand cs k

/-- Anchored match of the Ramp regexes, in the source's order:
`/^(durPhrase)\s+@\s+\d+rpm,\s+from\s+/i` first, then
`/^(durPhrase)\s+from\s+/i`; returns the duration capture. -/
def rampCapture (s : List Char) : Option (List Char) :=
  let withCad : Option (List Char) :=
    firstCand (durPhraseCands s) fun cr =>
      (ws1 cr.2).bind fun r1 =>
      (litCI "@".data r1).bind fun r2 =>
      (ws1 r2).bind fun r3 =>
      (if (r3.takeWhile jsIsDigit).isEmpty then none
       else litCI "rpm,".data (r3.dropWhile jsIsDigit)).bind fun r5 =>
      (ws1 r5).bind fun r6 =>
      (litCI "from".data r6).bind fun r7 =>
      (ws1 r7).map fun _ => cr.1
  match withCad with
  | some c => some c
  | none =>
    firstCand (durPhraseCands s) fun cr =>
      (ws1 cr.2).bind fun r1 =>
      (litCI "from".data r1).bind fun r2 =>
      (ws1 r2).map fun _ => cr.1

/-- Anchored match of `/^(durPhrase)\s+@\s+/i` (Steady State). -/
def steadyCapture (s : List Char) : Option (List Char) :=
  firstCand (durPhraseCands s) fun cr =>
    (ws1 cr.2).bind fun r1 =>
    (litCI "@".data r1).bind fun r2 =>
    (ws1 r2).map fun _ => cr.1

/-- Anchored match of `/^(\d+)x\s+(durPhrase)\s+@/i` (Intervals); returns
the repeat capture and the duration capture. -/
def intervalCaptures (s : List Char) : Option (List Char × List Char) :=
  let rep := s.takeWhile jsIsDigit
  if rep.isEmpty then none
  else
    (litCI "x".data (s.dropWhile jsIsDigit)).bind fun r2 =>
    (ws1 r2).bind fun r3 =>
    firstCand (durPhraseCands r3) fun cr =>
      (ws1 cr.2).bind fun r4 =>
      (litCI "@".data r4).map fun _ => (rep, cr.1)

/-- Match of `/@\s+(\d+)\s*rpm/i` at the start of `s`. -/
def atRpmAt (s : List Char) : Option (List Char) :=
  (litCI "@".data s).bind fun r1 =>
  (ws1 r1).bind fun r2 =>
  let d := r2.takeWhile jsIsDigit
  if d.isEmpty then none
  else
    (litCI "rpm".data ((r2.dropWhile jsIsDigit).dropWhile jsIsSpace)).map
      fun _ => d

/-- Unanchored leftmost search for `/@\s+(\d+)\s*rpm/i` (the on-cadence
lookup, which the source runs over the whole fragment text). -/
def searchAtRpm : List Char → Option (List Char)
  | [] => none
  | c :: t =>
    match atRpmAt (c :: t) with
    | some d => some d
    | none => searchAtRpm t

/-- Unanchored leftmost search for a bare duration phrase (the
off-duration lookup `/([\d.]+\s*min(?:\s+\d+sec)?|\d+\s*sec)/i`). -/
def searchDurPhrase : List Char → Option (List Char)
  | [] => none
  | c :: t =>
    match durPhraseCands (c :: t) with
    | cr :: _ => some cr.1
    | [] => searchDurPhrase t

/-- Tail after a `/<br\s*\/?>/i` match at the start of `s`. -/
def brTail (s : List Char) : Option (List Char) :=
  (litCI "<br".data s).bind fun r1 =>
  match r1.dropWhile jsIsSpace with
  | '/' :: '>' :: rest => some rest
  | '>' :: rest => some rest
  | _ => none

/-- Global replacement of `/<br\s*\/?>|\n/gi` by `','` (fuel-driven; the
fuel `s.length` dominates the number of steps since every step consumes
at least one character). -/
def normalizeBrAux : ℕ → List Char → List Char
  | 0, s => s
  | _ + 1, [] => []
  | f + 1, c :: t =>
    if c = '\n' then ',' :: normalizeBrAux f t
    else
      match brTail (c :: t) with
      | some rest => ',' :: normalizeBrAux f rest
      | none => c :: normalizeBrAux f t

def normalizeBr (s : List Char) : List Char := normalizeBrAux s.length s

/-- JS `split(/,\s*/)`: split at every comma, greedily absorbing trailing
whitespace into the separator (fuel-driven as above). -/
def splitCommaWsAux : ℕ → List Char → List Char → List (List Char)
  | 0, _, acc => [acc.reverse]
  | _ + 1, [], acc => [acc.reverse]
  | f + 1, c :: t, acc =>
    if c = ',' then acc.reverse :: splitCommaWsAux f (t.dropWhile jsIsSpace) []
    else splitCommaWsAux f t (c :: acc)

def splitCommaWs (s : List Char) : List (List Char) :=
  splitCommaWsAux s.length s []

/-- `Array.prototype.join(',')`. -/
def joinComma : List (List Char) → List Char
  | [] => []
  | [x] => x
  | x :: y :: t => x ++ ',' :: joinComma (y :: t)

/-! ### The Segment data model and parseSegment -/

/-- Segment records returned by `parseSegment` and consumed by
`generateZWO`.  The first four constructors carry exactly the fields the
source reads for the corresponding `type` strings; `other` models a
segment object whose `type` is none of the four handled strings and is
processed by the serializer's `default` branch (its `duration` is
optional there, and a JS `0` duration is falsy). -/
inductive Segment where
  | steadyState (duration : ℤ) (power : ℚ) (cadence : Option ℕ)
  | ramp (duration : ℤ) (powerLow powerHigh : ℚ) (cadence : Option ℕ)
  | intervalsT (repeatCount : ℕ) (onDuration : ℤ) (onPower : ℚ)
      (offDuration : ℤ) (offPower : ℚ) (onCadence offCadence : Option ℕ)
  | freeRide (duration : ℤ) (flatRoad : ℤ) (cadence : Option ℕ)
  | other (tag : String) (duration : Option ℤ) (cadence : Option ℕ)
  deriving DecidableEq

/-- The cadence extracted once at the top of `parseSegment` from the
trimmed text: `/(\d+)\s*rpm/i`. -/
def cadOf (t : List Char) : Option ℕ :=
  (searchCapUnit jsIsDigit "rpm".data t).map parseIntDec

/-- Free-Ride rule.  The returned record has no cadence field in the
source (JS `undefined`, falsy exactly like `null`), modelled as `none`. -/
def tryFreeRide (t : List Char) : Option Segment :=
  match freeRideMatch t with
  | none => none
  | some (c1, c2) =>
    let d := parseDuration (some (c1 ++ c2))
    if 0 < d then some (.freeRide d 1 none) else none

/-- Ramp rule.  A `none` annotation is a `NaN` power, so the
`!isNaN(powerLow) && !isNaN(powerHigh)` guard fails and the rule falls
through. -/
def tryRamp (t : List Char) (spans : List (Option ℚ)) (cadence : Option ℕ) :
    Option Segment :=
  match rampCapture t with
  | none => none
  | some cap =>
    match spans with
    | [some pl, some ph] =>
      let d := parseDuration (some cap)
      if 0 < d then some (.ramp d (pl / 100) (ph / 100) cadence) else none
    | _ => none

/-- Steady-State rule. -/
def trySteady (t : List Char) (spans : List (Option ℚ)) (cadence : Option ℕ) :
    Option Segment :=
  match steadyCapture t with
  | none => none
  | some cap =>
    match spans with
    | [some p] =>
      let d := parseDuration (some cap)
      if 0 < d then some (.steadyState d (p / 100) cadence) else none
    | _ => none

/-- Intervals rule.  `repeat` comes from `parseInt` on a `\d+` capture and
is never `NaN`, so the source's `!isNaN(repeat)` conjunct is always
true. -/
def tryIntervals (t : List Char) (spans : List (Option ℚ)) : Option Segment :=
  match intervalCaptures t with
  | none => none
  | some (repCap, durCap) =>
    match spans with
    | [some a, some b] =>
      let onD := parseDuration (some durCap)
      let onCad := (searchAtRpm t).map parseIntDec
      let parts := splitCommaWs (normalizeBr t)
      let offPair : ℤ × Option ℕ :=
        match parts with
        | _ :: rest@(_ :: _) =>
          let offText := joinComma rest
          let od :=
            match searchDurPhrase offText with
            | some c => parseDuration (some c)
            | none => 0
          (od, (searchCapUnit jsIsDigit "rpm".data offText).map parseIntDec)
        | _ => (0, none)
      if 0 < onD && 0 < offPair.1 then
        some (.intervalsT (parseIntDec repCap) onD (a / 100) offPair.1
          (b / 100) onCad offPair.2)
      else none
    | _ => none

/-- Fallback rule: one annotation and a bare leading duration phrase
(anchored match = head of the candidate list). -/
def tryFallback (t : List Char) (spans : List (Option ℚ))
    (cadence : Option ℕ) : Option Segment :=
  match spans with
  | [some p] =>
    match durPhraseCands t with
    | cr :: _ =>
      let d := parseDuration (some cr.1)
      if 0 < d then some (.steadyState d (p / 100) cadence) else none
    | [] => none
  | _ => none

/-- The rule cascade after the Free-Ride check. -/
def parseSegmentRest (t : List Char) (spans : List (Option ℚ))
    (cadence : Option ℕ) : Option Segment :=
  match tryRamp t spans cadence with
  | some s => some s
  | none =>
    match trySteady t spans cadence with
    | some s => some s
    | none =>
      match tryIntervals t spans with
      | some s => some s
      | none => tryFallback t spans cadence

/-- `parseSegment` from `content.js`: trims the fragment text, extracts
the shared cadence, then runs the ordered first-match-wins cascade.
`none` models the source's `null` (unparsed). -/
def parseSegment (rawText : List Char) (spans : List (Option ℚ)) :
    Option Segment :=
  let t := jsTrim rawText
  match tryFreeRide t with
  | some s => some s
  | none => parseSegmentRest t spans (cadOf t)

/-! ### Number formatting for the serializer -/

def digitChar (n : ℕ) : Char := Char.ofNat (48 + n)

/-- Decimal digits of `n`, most significant first (fuel-driven; `n + 1`
steps always suffice since the argument shrinks by a factor of 10). -/
def natDigitsAux : ℕ → ℕ → List Char
  | 0, _ => []
  | f + 1, n =>
    if n < 10 then [digitChar n]
    else natDigitsAux f (n / 10) ++ [digitChar (n % 10)]

def natDigits (n : ℕ) : List Char := natDigitsAux (n + 1) n

def natStr (n : ℕ) : String := ⟨natDigits n⟩

/-- JS default number-to-string for the integer values interpolated into
the template (durations, repeat counts, cadences, FlatRoad). -/
def intStr (i : ℤ) : String := (if i < 0 then "-" else "") ++ natStr i.natAbs

/-- The two digits after the decimal point (`k < 100`). -/
def twoDigits (k : ℕ) : String := ⟨if k < 10 then ['0', digitChar k] else natDigits k⟩

/-- JS `Number.prototype.toFixed(2)`: the integer `m` closest to
`100·|q|` (ties toward the larger), printed with a sign, the integer
part, and exactly two fractional digits. -/
def toFixed2 (q : ℚ) : String :=
  let m : ℕ := (⌊|q| * 100 + 1 / 2⌋).toNat
  (if q < 0 then "-" else "") ++ natStr (m / 100) ++ "." ++ twoDigits (m % 100)

/-! ### generateZWO -/

/-- Emission of an optional cadence attribute: the source guards with JS
truthiness (`if (segment.cadence)`), so a cadence of `0` — like an
absent one — emits nothing. -/
def cadAttr (name : String) (c : Option ℕ) : String :=
  match c with
  | some k => if k = 0 then "" else " " ++ name ++ "=\"" ++ natStr k ++ "\""
  | none => ""

/-- The `type` string stored on a segment record. -/
def segTag : Segment → String
  | .steadyState .. => "SteadyState"
  | .ramp .. => "Ramp"
  | .intervalsT .. => "IntervalsT"
  | .freeRide .. => "FreeRide"
  | .other tag _ _ => tag

/-- JS `String.prototype.replace` with a plain-string pattern: replace
the first occurrence only. -/
def replaceFirstL (pat sub : List Char) : List Char → List Char
  | [] => if listStartsWith pat [] then sub else []
  | c :: t =>
    if listStartsWith pat (c :: t) then sub ++ (c :: t).drop pat.length
    else c :: replaceFirstL pat sub t

def replaceFirst (pat sub s : String) : String :=
  ⟨replaceFirstL pat.data sub.data s.data⟩

/-- The document skeleton above the segment elements (the source
interpolates `window.location.href`, modelled as the `href` argument). -/
def zwoHeader (href name : String) : String :=
  "\n    <workout_file>\n        <author>WhatsOnZwift Exporter</author>\n        <name>"
    ++ name
    ++ "</name>\n        <description>Workout exported from WhatsOnZwift: "
    ++ href
    ++ "</description>\n        <sportType>bike</sportType>\n        <tags/>\n        <workout>\n"

def zwoFooter : String := "    </workout>\n</workout_file>"

/-- The body of the source's `segments.forEach` loop: `n` is
`segments.length`, `i` the current index, `acc` the `xml` accumulator.
Faithfully includes the `default` branch, whose no-duration case rewrites
the already-emitted opening tag via `String.replace` on the whole
accumulator. -/
def genSegLoop (n : ℕ) : ℕ → List Segment → String → String
  | _, [], acc => acc
  | i, seg :: rest, acc =>
    let intrinsic := segTag seg
    -- boundary override of the emitted tag; the original type (used for
    -- the attribute switch) is retained on the clone
    let emitted : String :=
      if i = 0 then "Warmup"
      else if i = n - 1 && 1 < n then "Cooldown"
      else intrinsic
    let acc1 := acc ++ "        <" ++ emitted ++ " "
    -- switch (originalType): attribute emission by the intrinsic type
    let acc2 : String :=
      match seg with
      | .ramp d pl ph c =>
        acc1 ++ "Duration=\"" ++ intStr d ++ "\" PowerLow=\"" ++ toFixed2 pl
          ++ "\" PowerHigh=\"" ++ toFixed2 ph ++ "\"" ++ cadAttr "Cadence" c
      | .steadyState d p c =>
        acc1 ++ "Duration=\"" ++ intStr d ++ "\" Power=\"" ++ toFixed2 p
          ++ "\"" ++ cadAttr "Cadence" c
      | .intervalsT r onD onP offD offP onC offC =>
        acc1 ++ "Repeat=\"" ++ natStr r ++ "\" OnDuration=\"" ++ intStr onD
          ++ "\" OnPower=\"" ++ toFixed2 onP ++ "\" OffDuration=\""
          ++ intStr offD ++ "\" OffPower=\"" ++ toFixed2 offP ++ "\""
          ++ cadAttr "OnCadence" onC ++ cadAttr "OffCadence" offC
      | .freeRide d fl c =>
        acc1 ++ "Duration=\"" ++ intStr d ++ "\" FlatRoad=\""
          ++ intStr (if fl = 0 then 1 else fl) ++ "\"" ++ cadAttr "Cadence" c
      | .other _ dur c =>
        -- default branch: unknown type
        match dur with
        | some d =>
          if d = 0 then
            -- a 0 duration is falsy in JS: last-resort default, with the
            -- opening-tag rewrite
            replaceFirst ("<" ++ emitted ++ " ") "<SteadyState " acc1
              ++ "Duration=\"60\" Power=\"0.50\""
          else
            acc1 ++ "Duration=\"" ++ intStr d ++ "\" Power=\"0.50\""
              ++ cadAttr "Cadence" c
        | none =>
          replaceFirst ("<" ++ emitted ++ " ") "<SteadyState " acc1
            ++ "Duration=\"60\" Power=\"0.50\""
    genSegLoop n (i + 1) rest (acc2 ++ " />\n")

/-- `generateZWO` from `content.js`. -/
def generateZWO (href name : String) (segments : List Segment) : String :=
  genSegLoop segments.length 0 segments (zwoHeader href name) ++ zwoFooter

/-! ### Specification-side serializer description (for the refinement
claim C1): positional boundary tag and per-kind attribute emission,
written from the spec's words. -/

/-- A segment of one of the four classified kinds (the data model's
Segment variants; `other` is the serializer's defensive default for
objects outside the data model). -/
def Segment.isClassified : Segment → Bool
  | .other .. => false
  | _ => true

/-- Boundary override as the spec words it: index 0 gets the lead tag,
the last index gets the trail tag only when the list has more than one
element, everything else keeps its intrinsic kind's tag. -/
def boundaryTag (i n : ℕ) (s : Segment) : String :=
  if i = 0 then "Warmup"
  else if i = n - 1 && 1 < n then "Cooldown"
  else segTag s

/-- Attribute string governed solely by the segment's intrinsic kind,
never by its position. -/
def kindAttrs : Segment → String
  | .ramp d pl ph c =>
    "Duration=\"" ++ intStr d ++ "\" PowerLow=\"" ++ toFixed2 pl
      ++ "\" PowerHigh=\"" ++ toFixed2 ph ++ "\"" ++ cadAttr "Cadence" c
  | .steadyState d p c =>
    "Duration=\"" ++ intStr d ++ "\" Power=\"" ++ toFixed2 p ++ "\""
      ++ cadAttr "Cadence" c
  | .intervalsT r onD onP offD offP onC offC =>
    "Repeat=\"" ++ natStr r ++ "\" OnDuration=\"" ++ intStr onD
      ++ "\" OnPower=\"" ++ toFixed2 onP ++ "\" OffDuration=\""
      ++ intStr offD ++ "\" OffPower=\"" ++ toFixed2 offP ++ "\""
      ++ cadAttr "OnCadence" onC ++ cadAttr "OffCadence" offC
  | .freeRide d fl c =>
    "Duration=\"" ++ intStr d ++ "\" FlatRoad=\""
      ++ intStr (if fl = 0 then 1 else fl) ++ "\"" ++ cadAttr "Cadence" c
  | .other .. => ""

/-- One serialized element as the spec describes it: boundary-overridden
tag, intrinsic-kind attributes. -/
def specElem (i n : ℕ) (s : Segment) : String :=
  "        <" ++ boundaryTag i n s ++ " " ++ kindAttrs s ++ " />\n"

def specBodyAux (n : ℕ) : ℕ → List Segment → String
  | _, [] => ""
  | i, s :: rest => specElem i n s ++ specBodyAux n (i + 1) rest

/-- The whole `<workout>` body as the spec describes it. -/
def specWorkoutBody (segs : List Segment) : String :=
  specBodyAux segs.length 0 segs

/-! ### Predicates used by the claims -/

/-- Replace every cadence field holding `some 0` by `none` (claim C9:
a zero cadence serializes identically to an absent one). -/
def eraseZeroCad : Segment → Segment
  | .steadyState d p c => .steadyState d p (if c = some 0 then none else c)
  | .ramp d pl ph c => .ramp d pl ph (if c = some 0 then none else c)
  | .intervalsT r onD onP offD offP onC offC =>
    .intervalsT r onD onP offD offP (if onC = some 0 then none else onC)
      (if offC = some 0 then none else offC)
  | .freeRide d fl c => .freeRide d fl (if c = some 0 then none else c)
  | .other t d c => .other t d (if c = some 0 then none else c)

/-- The numeric invariants that claim C5 says every rule re-validates
before returning: strictly positive durations (and, for a classifier
result, never the defensive `other` shape).  Powers are rationals by
construction here exactly because the source's `!isNaN` guards refuse a
`NaN` annotation before building the record. -/
def classifierValid : Segment → Prop
  | .steadyState d _ _ => 0 < d
  | .ramp d _ _ _ => 0 < d
  | .intervalsT _ onD _ offD _ _ _ => 0 < onD ∧ 0 < offD
  | .freeRide d _ _ => 0 < d
  | .other .. => False

/-- A string made of an optional sign and digits, then a dot, then
exactly two digits — "exactly two decimal digits" in claim C9. -/
def twoDecimalFormat (s : String) : Prop :=
  ∃ pre a b, s.data = pre ++ '.' :: [a, b] ∧ (∀ c ∈ pre, c ≠ '.') ∧
    a.isDigit = true ∧ b.isDigit = true

/-- A numeral as claim C3 quantifies over it: a non-empty string of
digits possibly containing dots, whose JS `parseFloat` value is a number
(this admits every decimal numeral `"15"`, `"2.5"`, `"0.50"`, …). -/
def numeralLike (s : List Char) : Prop :=
  s ≠ [] ∧ (∀ c ∈ s, jsIsDigitDot c = true) ∧ ∃ q, jsParseFloat s = some q

set_option maxRecDepth 16000

/-! ## Lemmas about the matchers -/

theorem litCI_append_self (u r : List Char) : litCI u (u ++ r) = some r := by
  induction u with
  | nil => rfl
  | cons c cs ih => simp [litCI, ih]

theorem litCI_head_ne (c : Char) (cs : List Char) (x : Char) (xs : List Char)
    (h : x.toLower ≠ c.toLower) : litCI (c :: cs) (x :: xs) = none := by
  simp [litCI, h]

theorem dropWhile_eq_self_of_takeWhile_nil (p : Char → Bool) (l : List Char)
    (h : l.takeWhile p = []) : l.dropWhile p = l := by
  cases l with
  | nil => rfl
  | cons c t =>
    by_cases hc : p c
    · simp [List.takeWhile_cons, hc] at h
    · simp [List.dropWhile_cons, hc]

theorem capUnitAt_run (cls : Char → Bool) (u run rest : List Char)
    (hrun : ∀ c ∈ run, cls c = true) (hne : run ≠ [])
    (h1 : rest.takeWhile cls = []) (h2 : rest.takeWhile jsIsSpace = []) :
    capUnitAt cls u (run ++ rest) =
      match litCI u rest with
      | some _ => some run
      | none => none := by
  have htk : (run ++ rest).takeWhile cls = run := by
    rw [List.takeWhile_append_of_pos hrun, h1, List.append_nil]
  have hdr : (run ++ rest).dropWhile cls = rest := by
    rw [List.dropWhile_append_of_pos hrun, dropWhile_eq_self_of_takeWhile_nil _ _ h1]
  have hws : rest.dropWhile jsIsSpace = rest :=
    dropWhile_eq_self_of_takeWhile_nil _ _ h2
  simp only [capUnitAt, htk, hdr, hws]
  rw [if_neg (by simpa [List.isEmpty_iff] using hne)]

theorem capUnitAt_head_notcls (cls : Char → Bool) (u : List Char) (c : Char)
    (t : List Char) (h : cls c = false) : capUnitAt cls u (c :: t) = none := by
  simp [capUnitAt, List.takeWhile_cons, h]

theorem searchCapUnit_cons (cls : Char → Bool) (u : List Char) (c : Char)
    (t : List Char) (h : capUnitAt cls u (c :: t) = none) :
    searchCapUnit cls u (c :: t) = searchCapUnit cls u t := by
  simp [searchCapUnit, h]

theorem searchCapUnit_skip_notcls (cls : Char → Bool) (u pre s : List Char)
    (h : ∀ c ∈ pre, cls c = false) :
    searchCapUnit cls u (pre ++ s) = searchCapUnit cls u s := by
  induction pre with
  | nil => rfl
  | cons c t ih =>
    rw [List.cons_append, searchCapUnit_cons _ _ _ _
      (capUnitAt_head_notcls _ _ _ _ (h c (by simp)))]
    exact ih fun c hc => h c (by simp [hc])

theorem searchCapUnit_skip_run (cls : Char → Bool) (u run rest : List Char)
    (hrun : ∀ c ∈ run, cls c = true)
    (h1 : rest.takeWhile cls = []) (h2 : rest.takeWhile jsIsSpace = [])
    (hfail : litCI u rest = none) :
    searchCapUnit cls u (run ++ rest) = searchCapUnit cls u rest := by
  induction run with
  | nil => rfl
  | cons c t ih =>
    have hca : capUnitAt cls u ((c :: t) ++ rest) = none := by
      rw [capUnitAt_run cls u (c :: t) rest (by exact hrun) (by simp) h1 h2, hfail]
    rw [List.cons_append] at hca ⊢
    rw [searchCapUnit_cons _ _ _ _ hca]
    exact ih fun x hx => hrun x (by simp [hx])

theorem searchCapUnit_run_found (cls : Char → Bool) (u run rest r : List Char)
    (hrun : ∀ c ∈ run, cls c = true) (hne : run ≠ [])
    (h1 : rest.takeWhile cls = []) (h2 : rest.takeWhile jsIsSpace = [])
    (hlit : litCI u rest = some r) :
    searchCapUnit cls u (run ++ rest) = some run := by
  have hca : capUnitAt cls u (run ++ rest) = some run := by
    rw [capUnitAt_run cls u run rest hrun hne h1 h2, hlit]
  cases run with
  | nil => exact absurd rfl hne
  | cons c t =>
    rw [List.cons_append] at hca ⊢
    simp [searchCapUnit, hca]

theorem listStartsWith_self (n r : List Char) : listStartsWith n (n ++ r) = true := by
  induction n with
  | nil => rfl
  | cons c t ih => simp [listStartsWith, ih]

theorem containsSub_of_startsWith (n s : List Char)
    (h : listStartsWith n s = true) : containsSub n s = true := by
  cases s with
  | nil => simpa [containsSub] using h
  | cons c t => simp [containsSub, h]

theorem containsSub_at (n pre post : List Char) :
    containsSub n (pre ++ (n ++ post)) = true := by
  induction pre with
  | nil => exact containsSub_of_startsWith _ _ (listStartsWith_self n post)
  | cons c t ih => simp [containsSub, ih]

theorem containsSub_head_false (n0 : Char) (n' hay : List Char)
    (h : ∀ c ∈ hay, c ≠ n0) : containsSub (n0 :: n') hay = false := by
  induction hay with
  | nil => rfl
  | cons c t ih =>
    have hc : decide (n0 = c) = false :=
      decide_eq_false fun he => h c (by simp) he.symm
    simp only [containsSub, listStartsWith, hc, Bool.false_and, Bool.false_or]
    exact ih fun x hx => h x (by simp [hx])

theorem jsParseFloat_nonneg (s : List Char) (q : ℚ) (h : jsParseFloat s = some q) :
    0 ≤ q := by
  simp only [jsParseFloat] at h
  split at h
  · split at h
    · exact absurd h (by simp)
    · rw [Option.some_inj] at h
      subst h
      positivity
  · split at h
    · exact absurd h (by simp)
    · rw [Option.some_inj] at h
      subst h
      positivity

theorem roundHalfAway_of_nonneg (q : ℚ) (h : 0 ≤ q) :
    jsRound q = roundHalfAway q := by
  rw [roundHalfAway, if_neg (by exact not_lt.mpr h)]
  rfl

theorem parseDuration_some (s : List Char) :
    parseDuration (some s) =
      if s.isEmpty then 0
      else
        match parseDurationQ s with
        | none => 0
        | some q => if q < 0 then 0 else jsRound q := rfl

theorem jsRound_zero : jsRound 0 = 0 := by
  unfold jsRound
  norm_num

/-! ## Claim C4 -/

/-- Claim C4: `parseDuration` is total, never negative, and returns the
sentinel `0` whenever the input is absent or empty, contains no
recognizable `min`/`sec` unit token, or yields a negative or
not-a-number value.  (Totality and freedom from exceptions are inherent:
the embedding is a total function.) -/
theorem claim_C4 (x : Option (List Char)) :
    0 ≤ parseDuration x ∧
    (x = none → parseDuration x = 0) ∧
    parseDuration (some []) = 0 ∧
    (∀ s, x = some s → searchDurTok "min".data s = none →
      searchDurTok "sec".data s = none → parseDuration x = 0) ∧
    (∀ s, x = some s → parseDurationQ s = none → parseDuration x = 0) ∧
    (∀ s q, x = some s → parseDurationQ s = some q → q < 0 →
      parseDuration x = 0) := by
  refine ⟨?_, ?_, rfl, ?_, ?_, ?_⟩
  · cases x with
    | none => exact le_refl 0
    | some s =>
      rw [parseDuration_some]
      by_cases he : s.isEmpty
      · rw [if_pos he]
      · rw [if_neg he]
        rcases hpq : parseDurationQ s with _ | q
        · exact le_refl 0
        · dsimp only
          by_cases hq : q < 0
          · rw [if_pos hq]
          · rw [if_neg hq]
            rw [not_lt] at hq
            unfold jsRound
            exact Int.le_floor.mpr (by push_cast; linarith)
  · rintro rfl; rfl
  · rintro s rfl hmin hsec
    simp only [searchDurTok] at hmin hsec
    have hq : parseDurationQ s = some 0 := by
      unfold parseDurationQ
      split
      · rw [searchDurTok, hmin, searchDurTok, hsec]
        simp
      · rw [searchDurTok, hmin, searchDurTok, hsec]
    rw [parseDuration_some]
    by_cases he : s.isEmpty
    · rw [if_pos he]
    · rw [if_neg he, hq]
      dsimp only
      rw [if_neg (by norm_num), jsRound_zero]
  · rintro s rfl hpq
    rw [parseDuration_some]
    by_cases he : s.isEmpty
    · rw [if_pos he]
    · rw [if_neg he, hpq]
  · rintro s q rfl hpq hneg
    rw [parseDuration_some]
    by_cases he : s.isEmpty
    · rw [if_pos he]
    · rw [if_neg he, hpq]
      dsimp only
      rw [if_pos hneg]

/-- Witness for C4 at the unit-less input `"10"`. -/
theorem claim_C4_witness :
    parseDuration (some "10".data) = 0 ∧ 0 ≤ parseDuration (some "10".data) :=
  ⟨(claim_C4 (some "10".data)).2.2.2.1 "10".data rfl (by decide) (by decide),
   (claim_C4 (some "10".data)).1⟩

/-! ## Claim C3 -/

theorem takeWhile_cons_false (p : Char → Bool) (c : Char) (l : List Char)
    (h : p c = false) : (c :: l).takeWhile p = [] := by
  simp [List.takeWhile_cons, h]

theorem jsIsDigitDot_ne_m (c : Char) (h : jsIsDigitDot c = true) : c ≠ 'm' := by
  rintro rfl
  exact absurd h (by decide)

theorem jsIsDigitDot_ne_s (c : Char) (h : jsIsDigitDot c = true) : c ≠ 's' := by
  rintro rfl
  exact absurd h (by decide)

theorem append_isEmpty_false (xs ys : List Char) (h : xs ≠ []) :
    (xs ++ ys).isEmpty = false := by
  cases xs with
  | nil => exact absurd rfl h
  | cons c t => rfl

/-- Claim C3: on every phrase `"{m}min {s}sec"` built from numerals,
`parseDuration` returns `m·60 + s` rounded half-away-from-zero, the
single-unit phrases `"{m}min"` and `"{s}sec"` round `m·60` and `s`
respectively, and the `.5` boundary rounds up (`"15.5sec" → 16`,
`"15.4sec" → 15`). -/
theorem claim_C3 (ms ss : List Char) (qm qs : ℚ)
    (hm1 : ms ≠ []) (hm2 : ∀ c ∈ ms, jsIsDigitDot c = true)
    (hm3 : jsParseFloat ms = some qm)
    (hs1 : ss ≠ []) (hs2 : ∀ c ∈ ss, jsIsDigitDot c = true)
    (hs3 : jsParseFloat ss = some qs) :
    parseDuration (some (ms ++ "min ".data ++ ss ++ "sec".data)) =
      roundHalfAway (qm * 60 + qs) ∧
    parseDuration (some (ms ++ "min".data)) = roundHalfAway (qm * 60) ∧
    parseDuration (some (ss ++ "sec".data)) = roundHalfAway qs ∧
    parseDuration (some "15.5sec".data) = 16 ∧
    parseDuration (some "15.4sec".data) = 15 := by
  have hqm0 : 0 ≤ qm := jsParseFloat_nonneg ms qm hm3
  have hqs0 : 0 ≤ qs := jsParseFloat_nonneg ss qs hs3
  have hsecTk : ∀ tail : List Char,
      List.takeWhile jsIsDigitDot ('s' :: tail) = [] :=
    fun tail => takeWhile_cons_false _ _ _ (by decide)
  refine ⟨?_, ?_, ?_, by with_unfolding_all decide, by with_unfolding_all decide⟩
  · -- combined phrase
    have hshape : ms ++ "min ".data ++ ss ++ "sec".data =
        ms ++ ('m' :: 'i' :: 'n' :: ' ' :: (ss ++ "sec".data)) := by
      simp [List.append_assoc]
    rw [hshape]
    have hcmin : containsSub "min".data
        (ms ++ ('m' :: 'i' :: 'n' :: ' ' :: (ss ++ "sec".data))) = true := by
      have := containsSub_at "min".data ms (' ' :: (ss ++ "sec".data))
      simpa using this
    have hcsec : containsSub "sec".data
        (ms ++ ('m' :: 'i' :: 'n' :: ' ' :: (ss ++ "sec".data))) = true := by
      have := containsSub_at "sec".data
        (ms ++ ('m' :: 'i' :: 'n' :: ' ' :: ss)) []
      simpa [List.append_assoc] using this
    have hsmin : searchCapUnit jsIsDigitDot "min".data
        (ms ++ ('m' :: 'i' :: 'n' :: ' ' :: (ss ++ "sec".data))) = some ms := by
      apply searchCapUnit_run_found jsIsDigitDot "min".data ms
        ('m' :: 'i' :: 'n' :: ' ' :: (ss ++ "sec".data))
        (' ' :: (ss ++ "sec".data)) hm2 hm1
        (takeWhile_cons_false _ _ _ (by decide))
        (takeWhile_cons_false _ _ _ (by decide))
      exact litCI_append_self "min".data (' ' :: (ss ++ "sec".data))
    have hssec : searchCapUnit jsIsDigitDot "sec".data
        (ms ++ ('m' :: 'i' :: 'n' :: ' ' :: (ss ++ "sec".data))) = some ss := by
      rw [searchCapUnit_skip_run jsIsDigitDot "sec".data ms
        ('m' :: 'i' :: 'n' :: ' ' :: (ss ++ "sec".data)) hm2
        (takeWhile_cons_false _ _ _ (by decide))
        (takeWhile_cons_false _ _ _ (by decide))
        (litCI_head_ne _ _ _ _ (by decide))]
      have hskip : searchCapUnit jsIsDigitDot "sec".data
          (('m' :: 'i' :: 'n' :: ' ' :: []) ++ (ss ++ "sec".data)) =
          searchCapUnit jsIsDigitDot "sec".data (ss ++ "sec".data) :=
        searchCapUnit_skip_notcls jsIsDigitDot "sec".data
          ('m' :: 'i' :: 'n' :: ' ' :: []) (ss ++ "sec".data)
          (by intro c hc; fin_cases hc <;> decide)
      rw [show ('m' :: 'i' :: 'n' :: ' ' :: (ss ++ "sec".data)) =
        ('m' :: 'i' :: 'n' :: ' ' :: []) ++ (ss ++ "sec".data) from rfl, hskip]
      apply searchCapUnit_run_found jsIsDigitDot "sec".data ss "sec".data []
        hs2 hs1 (hsecTk _) (takeWhile_cons_false _ _ _ (by decide))
      exact litCI_append_self "sec".data []
    have hpdq : parseDurationQ
        (ms ++ ('m' :: 'i' :: 'n' :: ' ' :: (ss ++ "sec".data))) =
        some (qm * 60 + qs) := by
      unfold parseDurationQ
      rw [if_pos (by rw [hcmin, hcsec]; rfl)]
      rw [searchDurTok, hsmin, searchDurTok, hssec]
      dsimp only
      rw [hm3, hs3]
    rw [parseDuration_some,
      if_neg (by rw [append_isEmpty_false _ _ hm1]; exact Bool.false_ne_true),
      hpdq]
    dsimp only
    rw [if_neg (not_lt.mpr (by linarith))]
    exact roundHalfAway_of_nonneg _ (by linarith)
  · -- "{m}min"
    have hcsec : containsSub "sec".data (ms ++ "min".data) = false := by
      apply containsSub_head_false
      intro c hc
      rcases List.mem_append.mp hc with h | h
      · exact jsIsDigitDot_ne_s c (hm2 c h)
      · fin_cases h <;> decide
    have hsmin : searchCapUnit jsIsDigitDot "min".data (ms ++ "min".data) =
        some ms := by
      apply searchCapUnit_run_found jsIsDigitDot "min".data ms "min".data []
        hm2 hm1 (takeWhile_cons_false _ _ _ (by decide))
        (takeWhile_cons_false _ _ _ (by decide))
      exact litCI_append_self "min".data []
    have hpdq : parseDurationQ (ms ++ "min".data) = some (qm * 60) := by
      unfold parseDurationQ
      rw [if_neg (by rw [hcsec, Bool.and_false]; exact Bool.false_ne_true)]
      rw [searchDurTok, hsmin]
      dsimp only
      rw [hm3]
      rfl
    rw [parseDuration_some,
      if_neg (by rw [append_isEmpty_false _ _ hm1]; exact Bool.false_ne_true),
      hpdq]
    dsimp only
    rw [if_neg (not_lt.mpr (by linarith))]
    exact roundHalfAway_of_nonneg _ (by linarith)
  · -- "{s}sec"
    have hcmin : containsSub "min".data (ss ++ "sec".data) = false := by
      apply containsSub_head_false
      intro c hc
      rcases List.mem_append.mp hc with h | h
      · exact jsIsDigitDot_ne_m c (hs2 c h)
      · fin_cases h <;> decide
    have hsmin : searchCapUnit jsIsDigitDot "min".data (ss ++ "sec".data) =
        none := by
      rw [searchCapUnit_skip_run jsIsDigitDot "min".data ss "sec".data hs2
        (hsecTk _) (takeWhile_cons_false _ _ _ (by decide))
        (litCI_head_ne _ _ _ _ (by decide))]
      have hskip : searchCapUnit jsIsDigitDot "min".data
          ("sec".data ++ []) = searchCapUnit jsIsDigitDot "min".data [] :=
        searchCapUnit_skip_notcls jsIsDigitDot "min".data "sec".data []
          (by intro c hc; fin_cases hc <;> decide)
      simpa using hskip
    have hssec : searchCapUnit jsIsDigitDot "sec".data (ss ++ "sec".data) =
        some ss := by
      apply searchCapUnit_run_found jsIsDigitDot "sec".data ss "sec".data []
        hs2 hs1 (hsecTk _) (takeWhile_cons_false _ _ _ (by decide))
      exact litCI_append_self "sec".data []
    have hpdq : parseDurationQ (ss ++ "sec".data) = some qs := by
      unfold parseDurationQ
      rw [if_neg (by rw [hcmin, Bool.false_and]; exact Bool.false_ne_true)]
      rw [searchDurTok, hsmin, searchDurTok, hssec]
      dsimp only
      rw [hs3]
    rw [parseDuration_some,
      if_neg (by rw [append_isEmpty_false _ _ hs1]; exact Bool.false_ne_true),
      hpdq]
    dsimp only
    rw [if_neg (not_lt.mpr (by linarith))]
    exact roundHalfAway_of_nonneg _ (by linarith)

/-- Witness for C3 at the phrase `"7min 30sec"`. -/
theorem claim_C3_witness :
    parseDuration (some ("7".data ++ "min ".data ++ "30".data ++ "sec".data)) =
      roundHalfAway ((7 : ℚ) * 60 + 30) ∧
    roundHalfAway ((7 : ℚ) * 60 + 30) = 450 :=
  ⟨(claim_C3 "7".data "30".data 7 30 (by decide) (by decide)
      (by with_unfolding_all decide) (by decide) (by decide)
      (by with_unfolding_all decide)).1,
   by with_unfolding_all decide⟩

/-! ## Claim C5 -/

theorem tryFreeRide_valid (t : List Char) (s : Segment)
    (h : tryFreeRide t = some s) : classifierValid s := by
  unfold tryFreeRide at h
  split at h
  · exact absurd h (by simp)
  · dsimp only at h
    split at h
    next hd =>
      rw [Option.some_inj] at h
      subst h
      exact hd
    · exact absurd h (by simp)

theorem tryRamp_valid (t : List Char) (spans : List (Option ℚ))
    (cad : Option ℕ) (s : Segment) (h : tryRamp t spans cad = some s) :
    classifierValid s := by
  unfold tryRamp at h
  split at h
  · exact absurd h (by simp)
  · split at h
    · dsimp only at h
      split at h
      next hd =>
        rw [Option.some_inj] at h
        subst h
        exact hd
      · exact absurd h (by simp)
    · exact absurd h (by simp)

theorem trySteady_valid (t : List Char) (spans : List (Option ℚ))
    (cad : Option ℕ) (s : Segment) (h : trySteady t spans cad = some s) :
    classifierValid s := by
  unfold trySteady at h
  split at h
  · exact absurd h (by simp)
  · split at h
    · dsimp only at h
      split at h
      next hd =>
        rw [Option.some_inj] at h
        subst h
        exact hd
      · exact absurd h (by simp)
    · exact absurd h (by simp)

theorem tryIntervals_valid (t : List Char) (spans : List (Option ℚ))
    (s : Segment) (h : tryIntervals t spans = some s) : classifierValid s := by
  unfold tryIntervals at h
  split at h
  · exact absurd h (by simp)
  · split at h
    · dsimp only at h
      split at h
      next hd =>
        rw [Option.some_inj] at h
        subst h
        simp only [Bool.and_eq_true, decide_eq_true_eq] at hd
        exact hd
      · exact absurd h (by simp)
    · exact absurd h (by simp)

theorem tryFallback_valid (t : List Char) (spans : List (Option ℚ))
    (cad : Option ℕ) (s : Segment) (h : tryFallback t spans cad = some s) :
    classifierValid s := by
  unfold tryFallback at h
  split at h
  · split at h
    · dsimp only at h
      split at h
      next hd =>
        rw [Option.some_inj] at h
        subst h
        exact hd
      · exact absurd h (by simp)
    · exact absurd h (by simp)
  · exact absurd h (by simp)

theorem parseSegmentRest_valid (t : List Char) (spans : List (Option ℚ))
    (cad : Option ℕ) (s : Segment) (h : parseSegmentRest t spans cad = some s) :
    classifierValid s := by
  unfold parseSegmentRest at h
  split at h
  next heq =>
    rw [Option.some_inj] at h
    subst h
    exact tryRamp_valid _ _ _ _ heq
  · split at h
    next heq =>
      rw [Option.some_inj] at h
      subst h
      exact trySteady_valid _ _ _ _ heq
    · split at h
      next heq =>
        rw [Option.some_inj] at h
        subst h
        exact tryIntervals_valid _ _ _ heq
      · exact tryFallback_valid _ _ _ _ h

theorem parseSegment_valid (raw : List Char) (spans : List (Option ℚ))
    (s : Segment) (h : parseSegment raw spans = some s) : classifierValid s := by
  simp only [parseSegment] at h
  split at h
  next heq =>
    rw [Option.some_inj] at h
    subst h
    exact tryFreeRide_valid _ _ heq
  · exact parseSegmentRest_valid _ _ _ _ h

/-- Claim C5: classification is total (a total Lean function: it cannot
raise), and every non-`none` result is a fully validated segment — its
durations are strictly positive and it is one of the four classified
kinds, never a partially-populated record.  Its power fields are real
rationals by construction, which is exactly the source's `!isNaN`
re-validation: a rule whose annotation is `NaN` refuses to return and
falls through, so every failure path converges on `none` (Unparsed). -/
theorem claim_C5 (raw : List Char) (anns : List (Option ℚ)) :
    parseSegment raw anns = none ∨
    ∃ s, parseSegment raw anns = some s ∧ classifierValid s := by
  cases h : parseSegment raw anns with
  | none => exact Or.inl rfl
  | some s => exact Or.inr ⟨s, rfl, parseSegment_valid raw anns s h⟩

/-! ## Claim C6 -/

/-- Claim C6: the Free-Ride rule is checked first and wins over every
later rule whenever its pattern matches with a strictly positive parsed
duration, regardless of the annotation list; `"15min Free Ride"` yields
`FreeRide{duration = 900, flatRoad = 1}`; and when the parsed duration
is 0 the rule is not a match — classification falls through to the
remaining cascade, and on `"0min free ride"` ultimately to Unparsed. -/
theorem claim_C6 :
    (∀ raw anns c1 c2, freeRideMatch (jsTrim raw) = some (c1, c2) →
      0 < parseDuration (some (c1 ++ c2)) →
      parseSegment raw anns =
        some (.freeRide (parseDuration (some (c1 ++ c2))) 1 none)) ∧
    (∀ anns, parseSegment "15min Free Ride".data anns =
      some (.freeRide 900 1 none)) ∧
    (∀ raw anns c1 c2, freeRideMatch (jsTrim raw) = some (c1, c2) →
      parseDuration (some (c1 ++ c2)) = 0 →
      parseSegment raw anns =
        parseSegmentRest (jsTrim raw) anns (cadOf (jsTrim raw))) ∧
    parseSegment "0min free ride".data [some 80] = none := by
  refine ⟨?_, ?_, ?_, by with_unfolding_all decide⟩
  · intro raw anns c1 c2 hm hd
    have hfr : tryFreeRide (jsTrim raw) =
        some (.freeRide (parseDuration (some (c1 ++ c2))) 1 none) := by
      unfold tryFreeRide
      rw [hm]
      dsimp only
      rw [if_pos hd]
    simp only [parseSegment]
    rw [hfr]
  · intro anns
    have hfr : tryFreeRide (jsTrim "15min Free Ride".data) =
        some (.freeRide 900 1 none) := by with_unfolding_all decide
    simp only [parseSegment]
    rw [hfr]
  · intro raw anns c1 c2 hm hd0
    have hfr : tryFreeRide (jsTrim raw) = none := by
      unfold tryFreeRide
      rw [hm]
      dsimp only
      rw [hd0, if_neg (lt_irrefl 0)]
    simp only [parseSegment]
    rw [hfr]

/-- Witness for C6 on `"30sec free ride"`. -/
theorem claim_C6_witness :
    freeRideMatch (jsTrim "30sec free ride".data) =
      some ("30".data, "sec".data) ∧
    0 < parseDuration (some ("30".data ++ "sec".data)) ∧
    parseSegment "30sec free ride".data [] =
      some (.freeRide (parseDuration (some ("30".data ++ "sec".data))) 1 none) :=
  ⟨by decide, by with_unfolding_all decide,
   claim_C6.1 "30sec free ride".data [] "30".data "sec".data
     (by decide) (by with_unfolding_all decide)⟩

/-! ## Claim C7 -/

/-- Claim C7: when none of the four primary rules matches but exactly
one annotation is present and the text begins with a bare duration
phrase of positive parsed duration, the fallback returns a SteadyState
segment with that duration, power `annotation/100` and the cadence found
in the text — no `@` marker required; and the fallback never pre-empts
the primary Steady-State rule, which runs first. -/
theorem claim_C7 :
    (∀ raw anns (p : ℚ) cr rest,
      tryFreeRide (jsTrim raw) = none →
      tryRamp (jsTrim raw) anns (cadOf (jsTrim raw)) = none →
      trySteady (jsTrim raw) anns (cadOf (jsTrim raw)) = none →
      tryIntervals (jsTrim raw) anns = none →
      anns = [some p] →
      durPhraseCands (jsTrim raw) = cr :: rest →
      0 < parseDuration (some cr.1) →
      parseSegment raw anns =
        some (.steadyState (parseDuration (some cr.1)) (p / 100)
          (cadOf (jsTrim raw)))) ∧
    (∀ raw anns s,
      tryFreeRide (jsTrim raw) = none →
      tryRamp (jsTrim raw) anns (cadOf (jsTrim raw)) = none →
      trySteady (jsTrim raw) anns (cadOf (jsTrim raw)) = some s →
      parseSegment raw anns = some s) := by
  constructor
  · intro raw anns p cr rest hfr hramp hsts hint hanns hcands hd
    subst hanns
    simp only [parseSegment]
    rw [hfr]
    unfold parseSegmentRest
    rw [hramp, hsts, hint]
    unfold tryFallback
    dsimp only
    rw [hcands]
    dsimp only
    rw [if_pos hd]
  · intro raw anns s hfr hramp hsts
    simp only [parseSegment]
    rw [hfr]
    unfold parseSegmentRest
    rw [hramp, hsts]

/-- Witness for C7 on the separator-less fragment `"12min 65% FTP"`
with one annotation of 65. -/
theorem claim_C7_witness :
    tryFreeRide (jsTrim "12min 65% FTP".data) = none ∧
    trySteady (jsTrim "12min 65% FTP".data) [some 65]
      (cadOf (jsTrim "12min 65% FTP".data)) = none ∧
    parseSegment "12min 65% FTP".data [some 65] =
      some (.steadyState (parseDuration (some "12min".data)) ((65 : ℚ) / 100)
        (cadOf (jsTrim "12min 65% FTP".data))) :=
  ⟨by with_unfolding_all decide, by with_unfolding_all decide,
   claim_C7.1 "12min 65% FTP".data [some 65] 65
     ("12min".data, " 65% FTP".data) []
     (by with_unfolding_all decide) (by with_unfolding_all decide)
     (by with_unfolding_all decide) (by with_unfolding_all decide) rfl
     (by with_unfolding_all decide) (by with_unfolding_all decide)⟩

/-! ## Claim C2 (refuted by the code: the on-cadence search is not
scoped to the on half) -/

/-- Claim C2 evaluation: on the fragment
`"3x 2min @ 95% FTP, 1min @ 80rpm, 50% FTP"` — whose only cadence marker
lies in the off half, after the first comma — the classifier returns
`onCadence = some 80`, not `none`: the source's on-cadence lookup
`/@\s+(\d+)\s*rpm/` runs over the whole fragment text and picks up the
off half's `"@ 80rpm"`.  (The repository's own test
`"Intervals with only Off Cadence"` expects `onCadence: null` here.) -/
theorem claim_C2 :
    parseSegment "3x 2min @ 95% FTP, 1min @ 80rpm, 50% FTP".data
      [some 95, some 50] =
      some (.intervalsT 3 120 (19 / 20) 60 (1 / 2) (some 80) (some 80)) := by
  with_unfolding_all decide

/-! ## Claim C8 (refuted by the code: no XML escaping) -/

/-- Claim C8 evaluation: the serializer embeds the workout name verbatim.
For the name `"A & B"` the emitted document contains the raw text
`<name>A & B</name>` and no escaped form `&amp;`, so the output is not a
well-formed XML document — the code does not apply the text-escaping the
specification requires. -/
theorem claim_C8 :
    containsSub "<name>A & B</name>".data
      (generateZWO "http://t" "A & B" [.steadyState 60 (1 / 2) none]).data
      = true ∧
    containsSub "&amp;".data
      (generateZWO "http://t" "A & B" [.steadyState 60 (1 / 2) none]).data
      = false := by
  constructor <;> with_unfolding_all decide

/-! ## Claim C1 -/

theorem genSegLoop_spec (segs : List Segment)
    (h : ∀ s ∈ segs, s.isClassified = true) :
    ∀ n i acc, genSegLoop n i segs acc = acc ++ specBodyAux n i segs := by
  induction segs with
  | nil =>
    intro n i acc
    simp [genSegLoop, specBodyAux, String.append_empty]
  | cons seg rest ih =>
    intro n i acc
    have hrest : ∀ s ∈ rest, s.isClassified = true :=
      fun s hs => h s (by simp [hs])
    have ih2 := ih hrest
    cases seg with
    | steadyState d p c =>
      simp only [genSegLoop, specBodyAux, specElem, boundaryTag, kindAttrs,
        segTag]
      rw [ih2]
      simp only [String.append_assoc]
    | ramp d pl ph c =>
      simp only [genSegLoop, specBodyAux, specElem, boundaryTag, kindAttrs,
        segTag]
      rw [ih2]
      simp only [String.append_assoc]
    | intervalsT r onD onP offD offP onC offC =>
      simp only [genSegLoop, specBodyAux, specElem, boundaryTag, kindAttrs,
        segTag]
      rw [ih2]
      simp only [String.append_assoc]
    | freeRide d fl c =>
      simp only [genSegLoop, specBodyAux, specElem, boundaryTag, kindAttrs,
        segTag]
      rw [ih2]
      simp only [String.append_assoc]
    | other tag dur c =>
      have hbad := h (Segment.other tag dur c) (by simp)
      simp [Segment.isClassified] at hbad

/-- Claim C1: for every segment list of classified kinds, the serializer
emits exactly one element per segment whose tag is the positional
boundary tag — index 0 always `Warmup`, the last index `Cooldown` only
when the list has more than one element, every other index the
intrinsic kind's tag — and whose attribute string is governed solely by
the segment's intrinsic kind, independent of the position and of the
overridden tag.  In particular a single-segment workout receives only
the lead-boundary tag. -/
theorem claim_C1 (href name : String) (segs : List Segment)
    (hcl : ∀ s ∈ segs, s.isClassified = true) :
    generateZWO href name segs =
      zwoHeader href name ++ specWorkoutBody segs ++ zwoFooter ∧
    (∀ s, segs = [s] →
      generateZWO href name segs =
        zwoHeader href name ++ ("        <Warmup " ++ kindAttrs s ++ " />\n")
          ++ zwoFooter) := by
  have hmain : generateZWO href name segs =
      zwoHeader href name ++ specWorkoutBody segs ++ zwoFooter := by
    unfold generateZWO specWorkoutBody
    rw [genSegLoop_spec segs hcl segs.length 0 (zwoHeader href name)]
  refine ⟨hmain, ?_⟩
  rintro s rfl
  rw [hmain]
  simp [specWorkoutBody, specBodyAux, specElem, boundaryTag,
    String.append_assoc, String.append_empty]

/-- Witness for C1 on a four-segment workout (one of each kind). -/
theorem claim_C1_witness :
    (∀ s ∈ [Segment.steadyState 600 (4 / 5) none,
        Segment.ramp 480 (3 / 5) (17 / 20) none,
        Segment.intervalsT 2 30 (11 / 10) 30 (11 / 20) (some 110) (some 85),
        Segment.freeRide 120 1 none], s.isClassified = true) ∧
    generateZWO "http://t" "W"
        [Segment.steadyState 600 (4 / 5) none,
         Segment.ramp 480 (3 / 5) (17 / 20) none,
         Segment.intervalsT 2 30 (11 / 10) 30 (11 / 20) (some 110) (some 85),
         Segment.freeRide 120 1 none] =
      zwoHeader "http://t" "W" ++
        specWorkoutBody
          [Segment.steadyState 600 (4 / 5) none,
           Segment.ramp 480 (3 / 5) (17 / 20) none,
           Segment.intervalsT 2 30 (11 / 10) 30 (11 / 20) (some 110) (some 85),
           Segment.freeRide 120 1 none] ++ zwoFooter :=
  ⟨by decide, (claim_C1 "http://t" "W" _ (by decide)).1⟩

/-! ## Claim C9 -/

theorem cadAttr_if (name : String) (c : Option ℕ) :
    cadAttr name (if c = some 0 then none else c) = cadAttr name c := by
  rcases c with _ | k
  · simp
  · by_cases hk : k = 0
    · subst hk
      simp [cadAttr]
    · rw [if_neg (by simp [hk])]

theorem genSegLoop_erase (segs : List Segment) :
    ∀ n i acc, genSegLoop n i (segs.map eraseZeroCad) acc =
      genSegLoop n i segs acc := by
  induction segs with
  | nil => intro n i acc; rfl
  | cons seg rest ih =>
    intro n i acc
    cases seg with
    | steadyState d p c =>
      simp only [List.map_cons, genSegLoop, eraseZeroCad, segTag, cadAttr_if]
      rw [ih]
    | ramp d pl ph c =>
      simp only [List.map_cons, genSegLoop, eraseZeroCad, segTag, cadAttr_if]
      rw [ih]
    | intervalsT r onD onP offD offP onC offC =>
      simp only [List.map_cons, genSegLoop, eraseZeroCad, segTag, cadAttr_if]
      rw [ih]
    | freeRide d fl c =>
      simp only [List.map_cons, genSegLoop, eraseZeroCad, segTag, cadAttr_if]
      rw [ih]
    | other tag dur c =>
      simp only [List.map_cons, genSegLoop, eraseZeroCad, segTag, cadAttr_if]
      rw [ih]

theorem digitChar_isDigit (k : ℕ) (h : k < 10) : (digitChar k).isDigit = true := by
  interval_cases k <;> decide

theorem natDigitsAux_digits (f : ℕ) :
    ∀ n, ∀ c ∈ natDigitsAux f n, c.isDigit = true := by
  induction f with
  | zero => intro n c hc; exact absurd hc (by simp [natDigitsAux])
  | succ f ih =>
    intro n c hc
    by_cases hn : n < 10
    · rw [natDigitsAux, if_pos hn] at hc
      rcases (by simpa using hc : c = digitChar n) with rfl
      exact digitChar_isDigit n hn
    · rw [natDigitsAux, if_neg hn] at hc
      rcases List.mem_append.mp hc with h | h
      · exact ih _ c h
      · rcases (by simpa using h : c = digitChar (n % 10)) with rfl
        exact digitChar_isDigit _ (Nat.mod_lt n (by norm_num))

theorem natDigits_digits (n : ℕ) : ∀ c ∈ natDigits n, c.isDigit = true :=
  natDigitsAux_digits (n + 1) n

theorem natDigitsAux_small (f n : ℕ) (hf : 0 < f) (hn : n < 10) :
    natDigitsAux f n = [digitChar n] := by
  cases f with
  | zero => exact absurd hf (by norm_num)
  | succ f => rw [natDigitsAux, if_pos hn]

theorem twoDigits_pair (k : ℕ) (hk : k < 100) :
    ∃ a b, (twoDigits k).data = [a, b] ∧ a.isDigit = true ∧
      b.isDigit = true := by
  by_cases h : k < 10
  · exact ⟨'0', digitChar k, by simp [twoDigits, h], by decide,
      digitChar_isDigit k h⟩
  · refine ⟨digitChar (k / 10), digitChar (k % 10), ?_, ?_, ?_⟩
    · show (if k < 10 then ['0', digitChar k] else natDigits k) = _
      rw [if_neg h, natDigits, natDigitsAux, if_neg h,
        natDigitsAux_small k (k / 10) (by omega) (by omega)]
      rfl
    · exact digitChar_isDigit _ (by omega)
    · exact digitChar_isDigit _ (Nat.mod_lt k (by norm_num))

theorem isDigit_ne_dot (c : Char) (h : c.isDigit = true) : c ≠ '.' := by
  rintro rfl
  exact absurd h (by decide)

/-- Claim C9: a cadence field holding `0` serializes exactly like an
absent cadence — erasing every `some 0` cadence leaves the emitted
document unchanged for every workout — and every power field is
formatted by `toFixed2`, which always produces exactly two decimal
digits regardless of the input's precision. -/
theorem claim_C9 :
    (∀ href name segs,
      generateZWO href name (segs.map eraseZeroCad) =
        generateZWO href name segs) ∧
    (∀ q : ℚ, twoDecimalFormat (toFixed2 q)) := by
  constructor
  · intro href name segs
    unfold generateZWO
    rw [List.length_map, genSegLoop_erase]
  · intro q
    obtain ⟨a, b, hab, ha, hb⟩ :=
      twoDigits_pair ((⌊|q| * 100 + 1 / 2⌋).toNat % 100)
        (Nat.mod_lt _ (by norm_num))
    refine ⟨(if q < 0 then "-" else "").data ++
      (natStr ((⌊|q| * 100 + 1 / 2⌋).toNat / 100)).data, a, b, ?_, ?_,
      ha, hb⟩
    · show ((if q < 0 then "-" else "") ++ natStr _ ++ "." ++ twoDigits _).data
        = _
      rw [String.data_append, String.data_append, String.data_append, hab]
      simp [List.append_assoc]
    · intro c hc
      rcases List.mem_append.mp hc with h | h
      · by_cases hq : q < 0
        · rw [if_pos hq] at h
          rcases (by simpa using h : c = '-') with rfl
          decide
        · rw [if_neg hq] at h
          exact absurd h (by simp)
      · exact isDigit_ne_dot c (natDigits_digits _ c h)

/-! ## Claim C10 -/

theorem tryRamp_not_freeRide (t : List Char) (spans : List (Option ℚ))
    (cad : Option ℕ) (d fl : ℤ) (c : Option ℕ)
    (h : tryRamp t spans cad = some (.freeRide d fl c)) : False := by
  unfold tryRamp at h
  split at h
  · exact absurd h (by simp)
  · split at h
    · dsimp only at h
      split at h
      · exact absurd h (by simp)
      · exact absurd h (by simp)
    · exact absurd h (by simp)

theorem trySteady_not_freeRide (t : List Char) (spans : List (Option ℚ))
    (cad : Option ℕ) (d fl : ℤ) (c : Option ℕ)
    (h : trySteady t spans cad = some (.freeRide d fl c)) : False := by
  unfold trySteady at h
  split at h
  · exact absurd h (by simp)
  · split at h
    · dsimp only at h
      split at h
      · exact absurd h (by simp)
      · exact absurd h (by simp)
    · exact absurd h (by simp)

theorem tryIntervals_not_freeRide (t : List Char) (spans : List (Option ℚ))
    (d fl : ℤ) (c : Option ℕ)
    (h : tryIntervals t spans = some (.freeRide d fl c)) : False := by
  unfold tryIntervals at h
  split at h
  · exact absurd h (by simp)
  · split at h
    · dsimp only at h
      split at h
      · exact absurd h (by simp)
      · exact absurd h (by simp)
    · exact absurd h (by simp)

theorem tryFallback_not_freeRide (t : List Char) (spans : List (Option ℚ))
    (cad : Option ℕ) (d fl : ℤ) (c : Option ℕ)
    (h : tryFallback t spans cad = some (.freeRide d fl c)) : False := by
  unfold tryFallback at h
  split at h
  · split at h
    · dsimp only at h
      split at h
      · exact absurd h (by simp)
      · exact absurd h (by simp)
    · exact absurd h (by simp)
  · exact absurd h (by simp)

theorem parseSegmentRest_not_freeRide (t : List Char) (spans : List (Option ℚ))
    (cad : Option ℕ) (d fl : ℤ) (c : Option ℕ)
    (h : parseSegmentRest t spans cad = some (.freeRide d fl c)) : False := by
  unfold parseSegmentRest at h
  split at h
  next heq =>
    rw [h] at heq
    exact tryRamp_not_freeRide _ _ _ _ _ _ heq
  · split at h
    next heq =>
      rw [h] at heq
      exact trySteady_not_freeRide _ _ _ _ _ _ heq
    · split at h
      next heq =>
        rw [h] at heq
        exact tryIntervals_not_freeRide _ _ _ _ _ heq
      · exact tryFallback_not_freeRide _ _ _ _ _ _ h

theorem intStr_ne_C (i : ℤ) : ∀ c ∈ (intStr i).data, c ≠ 'C' := by
  intro c hc
  unfold intStr at hc
  rw [String.data_append] at hc
  rcases List.mem_append.mp hc with h | h
  · by_cases hi : i < 0
    · rw [if_pos hi] at h
      rcases (by simpa using h : c = '-') with rfl
      decide
    · rw [if_neg hi] at h
      exact absurd h (by simp)
  · intro he
    subst he
    exact absurd (natDigits_digits _ _ h) (by decide)

/-- Claim C10: every FreeRide segment produced by the classifier carries
no cadence (even though the cadence was already extracted from the text)
and `flatRoad = 1`; the serialized form of such a segment never contains
a Cadence attribute; yet the serializer itself would emit one for a
FreeRide record that carried a cadence. -/
theorem claim_C10 :
    (∀ raw anns d fl c,
      parseSegment raw anns = some (.freeRide d fl c) → c = none ∧ fl = 1) ∧
    containsSub " Cadence=\"85\"".data
      (generateZWO "h" "n" [.freeRide 120 1 (some 85)]).data = true ∧
    (∀ d : ℤ, containsSub "Cadence".data
      (generateZWO "h" "n" [.freeRide d 1 none]).data = false) := by
  refine ⟨?_, by with_unfolding_all decide, ?_⟩
  · intro raw anns d fl c h
    simp only [parseSegment] at h
    split at h
    next heq =>
      rw [h] at heq
      unfold tryFreeRide at heq
      split at heq
      · exact absurd heq (by simp)
      · dsimp only at heq
        split at heq
        · rw [Option.some_inj] at heq
          rw [Segment.freeRide.injEq] at heq
          exact ⟨heq.2.2.symm, heq.2.1.symm⟩
        · exact absurd heq (by simp)
    · exact absurd (parseSegmentRest_not_freeRide _ _ _ _ _ _ h) (fun hf => hf)
  · intro d
    apply containsSub_head_false
    intro c hc
    rintro rfl
    simp only [generateZWO, genSegLoop, segTag, cadAttr] at hc
    simp [zwoHeader, zwoFooter, String.data_append] at hc
    rcases hc with hc | hc
    · exact intStr_ne_C d 'C' hc rfl
    · exact intStr_ne_C 1 'C' hc rfl

/-- Witness for C10 on the classified fragment `"15min Free Ride"`. -/
theorem claim_C10_witness :
    parseSegment "15min Free Ride".data [] = some (.freeRide 900 1 none) ∧
    ((none : Option ℕ) = none ∧ (1 : ℤ) = 1) :=
  ⟨by with_unfolding_all decide,
   claim_C10.1 "15min Free Ride".data [] 900 1 none
     (by with_unfolding_all decide)⟩
